import Mathlib

/-
  Verification development for the nix2pkg repository.

  Strings are shallowly embedded as lists of characters (`Str`), so that
  every definition is executable and every concrete claim can be settled
  by evaluation inside the kernel.  Each Python helper that the claims
  mention is translated to a Lean definition of the same name (leading
  underscores dropped where Lean style prefers it); external subprocess
  calls (nix, rpmbuild, pkgbuild, productbuild) are passed in as oracle
  parameters, since their behaviour lives outside the repository.
-/

abbrev Str := List Char

/-- Character class `[a-z0-9]` from the `separate_name_hash` regular
expression in `libs/nix_helper.py`. -/
def isLowerAlnum (c : Char) : Bool :=
  decide (('a' ≤ c ∧ c ≤ 'z') ∨ ('0' ≤ c ∧ c ≤ '9'))

/-- The regex metacharacter `.` in Python (without DOTALL): any character
except a newline. -/
def dotChar (c : Char) : Bool :=
  decide (c ≠ '\n')

/-- List-of-characters form of string prefix testing. -/
def isPrefixList : Str → Str → Bool
  | [], _ => true
  | _ :: _, [] => false
  | a :: as, b :: bs => if a = b then isPrefixList as bs else false

/-- Substring containment, the Python expression `needle in hay`. -/
def containsSub : Str → Str → Bool
  | needle, [] => isPrefixList needle []
  | needle, c :: t => isPrefixList needle (c :: t) || containsSub needle t

/-
  `separate_name_hash` (libs/nix_helper.py lines 285-291):

      matched = re.match(r"^.*/([a-z0-9]{32})-(.*)$", path)
      if not matched:
          raise RuntimeError(...)
      return matched.group(1), matched.group(2)

  The regex is embedded by its matching semantics.  `^.*/` places group 1
  immediately after a `/` that is preceded only by non-newline characters;
  the greedy `.*` means the rightmost such `/` whose suffix matches wins.
  `([a-z0-9]{32})-` is a fixed-length match, and `(.*)$` matches the rest
  of the string, or the rest minus a single trailing newline (Python `$`).
  `none` models the raised `RuntimeError`.
-/

/-- Semantics of `(.*)$` against a suffix `s`: the captured group, when
the pattern matches at the start of `s`. -/
def matchEnd (s : Str) : Option Str :=
  if s.all dotChar then some s
  else if s.dropLast.all dotChar ∧ s.getLast? = some '\n' then some s.dropLast
  else none

/-- Semantics of `([a-z0-9]{32})-(.*)$` anchored at the start of `s`. -/
def regexTail (s : Str) : Option (Str × Str) :=
  if (s.take 32).length = 32 ∧ (s.take 32).all isLowerAlnum ∧
      (s.drop 32).head? = some '-' then
    match matchEnd (s.drop 33) with
    | some n => some (s.take 32, n)
    | none => none
  else none

/-- Attempt of the whole pattern with group 1 starting right after the
slash at index `i` of `path`. -/
def sepMatchAt (path : Str) (i : Nat) : Option (Str × Str) :=
  if path[i]? = some '/' ∧ (path.take i).all dotChar then
    regexTail (path.drop (i + 1))
  else none

/-- Greedy search: indices are tried from the rightmost slash downwards,
matching the backtracking order of the greedy leading `.*`. -/
def searchFrom (path : Str) : Nat → Option (Str × Str)
  | 0 => none
  | i + 1 =>
    match sepMatchAt path i with
    | some r => some r
    | none => searchFrom path i

/-- `separate_name_hash` from `libs/nix_helper.py`: returns
`some (hash, name)`, or `none` for the raised `RuntimeError`. -/
def separate_name_hash (path : Str) : Option (Str × Str) :=
  searchFrom path path.length

example :
    separate_name_hash "/nix/store/0123456789abcdefghij0123456789ab-wget-1.20.3".data
      = some ("0123456789abcdefghij0123456789ab".data, "wget-1.20.3".data) := by
  decide

example : separate_name_hash "/nix/store/tooshort-wget".data = none := by decide

example : separate_name_hash "0123456789abcdefghij0123456789ab-wget".data = none := by
  decide

/-
  `add_cross_compile_pkgs` (libs/nix_helper.py lines 293-318).
  `Architecture.is_x86` / `Architecture.is_arm` inspect `os.uname()`, so the
  host architecture is passed in as the two booleans `isX86` and `isArm`.
  The per-package appends of the Python loop become a flatMap; append
  order inside one iteration (x86 block first, then arm block, native name
  before the cross name) is preserved.
-/

/-- One iteration of the `add_cross_compile_pkgs` loop body. -/
def crossExpandOne (isX86 isArm : Bool) (arm x86 : Bool) (pkg : Str) : List Str :=
  if containsSub "pkgsCross".data pkg then [pkg]
  else
    (if isX86 then
        (if x86 then [pkg] else []) ++
        (if arm then ["pkgsCross.aarch64-darwin.".data ++ pkg] else [])
      else []) ++
    (if isArm then
        (if arm then [pkg] else []) ++
        (if x86 then ["pkgsCross.x86_64-darwin.".data ++ pkg] else [])
      else [])

/-- `add_cross_compile_pkgs` from `libs/nix_helper.py`. -/
def add_cross_compile_pkgs (isX86 isArm : Bool) (pkgs : List Str)
    (arm x86 : Bool) : List Str :=
  if arm = false ∧ x86 = false then pkgs
  else pkgs.flatMap (crossExpandOne isX86 isArm arm x86)

example :
    add_cross_compile_pkgs true false ["wget".data] true true
      = ["wget".data, "pkgsCross.aarch64-darwin.wget".data] := by decide

/-
  Sanitization `name.replace("+", "plus")` shared by `RPMHelper._rpm_name`
  (libs/rpm_helper.py lines 117-122), `PkgHelper._comp_pkg_name` and
  `PkgHelper._dist_pkg_name` (libs/pkg_helper.py lines 75-86).  Python
  `str.replace` with a one-character needle substitutes each occurrence
  independently.
-/

/-- `name.replace("+", "plus")`. -/
def sanitizePlus : Str → Str
  | [] => []
  | c :: rest =>
    (if c = '+' then ['p', 'l', 'u', 's'] else [c]) ++ sanitizePlus rest

/-- `RPMHelper._rpm_name`: `f"nix2rpm-{pkg_name}-{pkg_hash}"` sanitized. -/
def rpm_name (pkg_name pkg_hash : Str) : Str :=
  sanitizePlus ("nix2rpm-".data ++ pkg_name ++ '-' :: pkg_hash)

/-- `PkgHelper._comp_pkg_name`: `f"{pkg_name}-{pkg_hash}.pkg"` sanitized. -/
def comp_pkg_name (pkg_name pkg_hash : Str) : Str :=
  sanitizePlus (pkg_name ++ '-' :: pkg_hash ++ ".pkg".data)

/-- `PkgHelper._dist_pkg_name`: `f"nix2pkg-{pkg_name}.pkg"` sanitized.
Note the source takes only the package name; no hash is embedded. -/
def dist_pkg_name (pkg_name : Str) : Str :=
  sanitizePlus ("nix2pkg-".data ++ pkg_name ++ ".pkg".data)

example : rpm_name "gtk+".data "abc".data = "nix2rpm-gtkplus-abc".data := by decide
example : dist_pkg_name "wget".data = "nix2pkg-wget.pkg".data := by decide

/-
  `RPMHelper.generate_spec` (libs/rpm_helper.py lines 39-81).  The
  `Requires:` accumulation loop is `req_build`; the final
  `list(filter(None, specfile_contents))` drops both the `None` entry and
  any empty string, which is modelled by `filterMap id` followed by a
  non-empty filter; `"\n".join` is `List.intercalate`.
-/

/-- The `Requires:` accumulation loop of `generate_spec`: state is the
pair `(req_line, nodeps)`. -/
def req_build (pkg_hash : Str) : List (Str × Str) → Str × Bool → Str × Bool
  | [], acc => acc
  | (dep_hash, dep_name) :: rest, (line, nodeps) =>
    if dep_hash ≠ pkg_hash then
      req_build pkg_hash rest (line ++ ' ' :: rpm_name dep_name dep_hash, false)
    else
      req_build pkg_hash rest (line, nodeps)

/-- The `specfile_contents` list of `generate_spec`, with the optional
`Requires:` entry as `Option`. -/
def specfile_entries (pkg_path pkg_name pkg_hash : Str)
    (deps_pairs : List (Str × Str)) : List (Option Str) :=
  [ some ("Name: ".data ++ rpm_name pkg_name pkg_hash),
    some "Version: 1".data,
    some "Release: 0".data,
    some "Summary: Nix2RPM".data,
    some "Group: Nix2RPM".data,
    some "License: Facebook".data,
    some "AutoReq: No".data,
    some "AutoProv: No".data,
    some "Packager: prod_macos".data,
    (if (req_build pkg_hash deps_pairs ("Requires:".data, true)).2 then none
      else some (req_build pkg_hash deps_pairs ("Requires:".data, true)).1),
    some "%description".data,
    some ("Packaged ".data ++ pkg_name ++ " with hash ".data ++ pkg_hash ++
          " using nix2rpm".data),
    some "%install".data,
    some "mkdir -p $RPM_BUILD_ROOT/opt/facebook/nix/store/".data,
    some ("cp -a ".data ++ pkg_path ++
          " $RPM_BUILD_ROOT/opt/facebook/nix/store/".data),
    some "%files".data,
    some pkg_path,
    some "%clean".data,
    some "chmod -R +w $RPM_BUILD_ROOT".data,
    some "rm -rf $RPM_BUILD_ROOT".data ]

/-- `list(filter(None, specfile_contents))`: drop the missing `Requires:`
entry and any empty line. -/
def specfile_lines (pkg_path pkg_name pkg_hash : Str)
    (deps_pairs : List (Str × Str)) : List Str :=
  ((specfile_entries pkg_path pkg_name pkg_hash deps_pairs).filterMap id).filter
    (fun l => decide (l ≠ []))

/-- `generate_spec`: the joined spec-file text. -/
def generate_spec (pkg_path pkg_name pkg_hash : Str)
    (deps_pairs : List (Str × Str)) : Str :=
  List.intercalate ['\n'] (specfile_lines pkg_path pkg_name pkg_hash deps_pairs)

example :
    specfile_lines "/s/h1-a".data "a".data "h1".data
        [("h1".data, "a".data), ("h2".data, "b".data)]
      = [ "Name: nix2rpm-a-h1".data, "Version: 1".data, "Release: 0".data,
          "Summary: Nix2RPM".data, "Group: Nix2RPM".data, "License: Facebook".data,
          "AutoReq: No".data, "AutoProv: No".data, "Packager: prod_macos".data,
          "Requires: nix2rpm-b-h2".data,
          "%description".data, "Packaged a with hash h1 using nix2rpm".data,
          "%install".data, "mkdir -p $RPM_BUILD_ROOT/opt/facebook/nix/store/".data,
          "cp -a /s/h1-a $RPM_BUILD_ROOT/opt/facebook/nix/store/".data,
          "%files".data, "/s/h1-a".data, "%clean".data,
          "chmod -R +w $RPM_BUILD_ROOT".data, "rm -rf $RPM_BUILD_ROOT".data ] := by
  decide

/-
  `get_pkgs_to_pack` (libs/nix_helper.py lines 253-273).  `os.listdir` of
  the store and `os.path.isdir` are passed in as the `entries` list of
  (basename, is-directory) pairs; the `nix-store --query --requisites`
  subprocess is the `closure` oracle.  The nested for loops appending
  `os.path.join(root, file)` become a flatMap over a filter, producing the
  same list in the same order; `list(set(accum))` is modelled by
  `List.dedup` (Python set order is unspecified; only membership and
  duplicate-freeness are claimed).  `Except.error ()` models the raised
  `NixPackagePathNotFoundError`.
-/

/-- `Paths.NIX_STORE` from `libs/io_helper.py`: `/nix` joined with
`store`. -/
def NIX_STORE : Str := "/nix/store".data

/-- `os.path.join(root, file)` for a basename `file`. -/
def storeJoin (file : Str) : Str := NIX_STORE ++ '/' :: file

/-- The `dirlist` accumulation of `get_pkgs_to_pack`: every (file, pname)
pair with `pname in file and os.path.isdir(...)` contributes one entry. -/
def dirlistOf (entries : List (Str × Bool)) (pnames : List Str) : List Str :=
  entries.flatMap (fun e =>
    (pnames.filter (fun p => containsSub p e.1 && e.2)).map
      (fun _ => storeJoin e.1))

/-- `get_pkgs_to_pack` from `libs/nix_helper.py`. -/
def get_pkgs_to_pack (entries : List (Str × Bool)) (closure : Str → List Str)
    (pnames : List Str) : Except Unit (List Str) :=
  let dirlist := dirlistOf entries pnames
  if dirlist.length = 0 then .error ()
  else .ok ((dirlist.flatMap closure).dedup)

example :
    get_pkgs_to_pack [("aa-wget".data, true), ("bb-zip.drv".data, false)]
        (fun p => [p, "/nix/store/cc-libc".data]) ["wget".data, "zip".data]
      = .ok ["/nix/store/aa-wget".data, "/nix/store/cc-libc".data] := by rfl

/-
  `NixHelper._set_enviromentals` (libs/nix_helper.py lines 42-74) and
  `_set_fwdproxy_enviromentals` (lines 77-86).  The process environment is
  an association list; `envSet` is `os.environ[k] = v` (update in place or
  append), `envGet` is the possibly-raising `os.environ[k]` lookup.  The
  generator-based context manager has NO try/finally around its `yield`:
  on normal completion the code after `yield` clears the environment and
  restores the saved copy, but an exception thrown into the generator at
  the `yield` point propagates immediately and the restore never runs.
  `with_set_enviromentals` embeds exactly that control flow.
-/

abbrev Env := List (Str × Str)

/-- `os.environ[k] = v`. -/
def envSet (env : Env) (k v : Str) : Env :=
  if (env.find? (fun e => decide (e.1 = k))).isSome then
    env.map (fun e => if e.1 = k then (k, v) else e)
  else env ++ [(k, v)]

/-- `os.environ[k]`, `none` for a `KeyError`. -/
def envGet (env : Env) (k : Str) : Option Str :=
  (env.find? (fun e => decide (e.1 = k))).map (fun e => e.2)

/-- `Paths` store paths used by the overrides; the nix / nss store names
depend on the host architecture (libs/io_helper.py lines 16-40). -/
def nix_path (isX86 : Bool) : Str :=
  if isX86 then "68mfbnrkd4kghrai35f9rz6hn737fn98-nix-2.3.14pre7112_bd4e03d".data
  else "53r8ay20mygy2sifn7j2p8wjqlx2kxik-nix-2.19.2".data

def nss_path (isX86 : Bool) : Str :=
  if isX86 then "8k0nxlkbmw6am0mn5xm5j7p0ir1z5g65-nss-cacert-3.66".data
  else "8ma7xas2nb0i3lq8mm7fpgalv94s8pzh-nss-cacert-3.92".data

def CA_PACKAGE (isX86 : Bool) : Str := NIX_STORE ++ '/' :: nss_path isX86

def NIX_VAR : Str := "/nix/var".data
def NIX_PROFILES : Str := NIX_VAR ++ "/nix/profiles".data
def NIX_STATE : Str := NIX_VAR ++ "/nix".data
def NIX_LOG : Str := NIX_VAR ++ "/log/nix".data
def NIX_CONFIG : Str := "/nix/conf".data

/-- `_set_fwdproxy_enviromentals`. -/
def set_fwdproxy_enviromentals (env : Env) : Env :=
  let env := envSet env "no_proxy".data
    (".fbcdn.net,.facebook.com,.thefacebook.com,.tfbnw.net,.fb.com,.fburl.com,.facebook.net,.sb.fbsbx.com,localhost".data)
  let env := envSet env "http_proxy".data "fwdproxy:8080".data
  let env := envSet env "https_proxy".data "fwdproxy:8080".data
  let env := envSet env "ftp_proxy".data "fwdproxy:8080".data
  envSet env "CURL_NIX_FLAGS".data "-x http://fwdproxy:8080 --proxy-insecure".data

/-- The environment mutations performed before the `yield` of
`_set_enviromentals`.  `.error` carries the partially mutated environment
when `os.environ["HOME"]` or `os.environ["PATH"]` raises `KeyError`. -/
def set_enviromentals_env (force fwdproxy isX86 : Bool) (env : Env) :
    Except Env Env :=
  let env := envSet env "NIX_STORE_DIR".data NIX_STORE
  let env := envSet env "NIX_STATE_DIR".data NIX_STATE
  let env := envSet env "NIX_LOG_DIR".data NIX_LOG
  let env := envSet env "NIX_CONF_DIR".data NIX_CONFIG
  let env := envSet env "NIX_SSL_CERT_FILE".data
    (CA_PACKAGE isX86 ++ "/etc/ssl/certs/ca-bundle.crt".data)
  match envGet env "HOME".data with
  | none => .error env
  | some home =>
    let nix_link := home ++ "/.nix-profile".data
    let env := envSet env "NIX_PATH".data (home ++ "/.nix-defexpr/channels".data)
    let env := envSet env "NIX_PROFILES".data
      (NIX_PROFILES ++ "/default ".data ++ home ++ "/.nix-profile".data)
    match envGet env "PATH".data with
    | none => .error env
    | some path =>
      let env := envSet env "PATH".data (nix_link ++ "/bin:".data ++ path)
      let env := envSet env "NIXPKGS_ALLOW_UNFREE".data "1".data
      let env := if force then
          envSet (envSet (envSet env "NIXPKGS_ALLOW_INSECURE".data "1".data)
            "NIXPKGS_ALLOW_UNSUPPORTED_SYSTEM".data "1".data)
            "NIXPKGS_ALLOW_BROKEN".data "1".data
        else env
      let env := if fwdproxy then set_fwdproxy_enviromentals env else env
      .ok env

/-- `with self._set_enviromentals(force): body` — the with-statement over
the generator-based context manager.  The body receives the overridden
environment and returns its result together with the environment it
leaves behind.  On normal return the saved environment is restored
(`os.environ.clear(); os.environ.update(saved)`); on an exception from
the body the restore code after `yield` is skipped, so the final
environment is whatever the body left.  The outer error value is `none`
for a `KeyError` during entry and `some e` for a body exception. -/
def with_set_enviromentals {ε α : Type} (force fwdproxy isX86 : Bool)
    (env0 : Env) (body : Env → Except ε α × Env) : Except (Option ε) α × Env :=
  match set_enviromentals_env force fwdproxy isX86 env0 with
  | .error envPartial => (.error none, envPartial)
  | .ok env1 =>
    match body env1 with
    | (.ok a, _) => (.ok a, env0)
    | (.error e, env2) => (.error (some e), env2)

/-
  `PkgHelper.build_dist_pkg` (libs/pkg_helper.py lines 16-38).  The
  `/usr/bin/productbuild` subprocess is the `productbuild` oracle, mapping
  a command line to an exit code.  The second component of the result
  records the command line handed to the external builder, `none` when the
  builder was never invoked.
-/

/-- `PkgHelper.build_dist_pkg`: returns the success flag and the
productbuild invocation (if any). -/
def build_dist_pkg (productbuild : List Str → Int)
    (component_packages : List Str) (pkg_name output_dir : Str) :
    Bool × Option (List Str) :=
  if component_packages.length = 0 then (false, none)
  else
    let cmd := ["/usr/bin/productbuild".data] ++
      component_packages.flatMap (fun p => ["--package".data, p]) ++
      [output_dir ++ '/' :: dist_pkg_name pkg_name]
    (decide (productbuild cmd = 0), some cmd)

/-
  The `package` command (main.py lines 110-207) and its helpers
  `create_rpm` (lines 211-218), `create_cpkg` (lines 222-230) and
  `create_dpkg` (lines 234-241).

  External effects are oracles collected in `ExtTools`:
  `build` is `nix.build_pkg` (which may raise `NixBuildError` among
  others), `pack_list` is `nix.get_pkgs_to_pack` (which may raise
  `NixPackagePathNotFoundError`), `references` is
  `nix.get_pkgs_references`, `isdir` is `os.path.isdir`, and
  `rpm_build` / `cpkg_build` are the exit-status success flags of the
  external `rpmbuild` / `pkgbuild` invocations (keyed by the store path
  being packaged).  Profile switching, directory creation and spec-file
  writes are effect-free for the claims and are elided.

  The loop state mirrors the Python local variables: `rpm_error` (set at
  line 133 and tested at line 143 but never assigned `True` anywhere),
  `pkg_error`, and the loop-scoped `all_pkgs` (unbound before the first
  iteration, hence `Option`).  `started` records each package whose build
  phase was entered, and `artifacts` records every per-store-path
  artifact-build invocation with its success flag.

  Exceptions are `PyExc`; an exception carries the state at the raise
  point.  `create_dpkg` calls `pkgh.build_dist_pkg(components, pkg_name,
  pkg_hash, nix_paths.PACKAGES_OUT)` with four arguments while
  `build_dist_pkg` accepts three, so Python raises `TypeError` at that
  call: `distStep` is therefore `.error .typeErr` whenever it gets past
  `separate_name_hash(all_pkgs[0])`.
-/

inductive PyExc where
  | nixBuild
  | notFound
  | runtimeErr
  | nameErr
  | indexErr
  | typeErr
deriving DecidableEq, Repr

structure ExtTools where
  installed : Bool
  build : Str → Except PyExc (List Str)
  pack_list : List Str → Except PyExc (List Str)
  references : Str → List Str
  isdir : Str → Bool
  rpm_build : Str → Bool
  cpkg_build : Str → Bool

structure St where
  rpm_error : Bool
  pkg_error : Bool
  all_pkgs : Option (List Str)
  started : List Str
  artifacts : List (Str × Bool)
deriving DecidableEq, Repr

def St.init : St := ⟨false, false, none, [], []⟩

/-- `[nix.separate_name_hash(p) for p in deps]`: evaluated left to right,
raising `RuntimeError` at the first non-matching path. -/
def depsPairs : List Str → Except PyExc (List (Str × Str))
  | [] => .ok []
  | p :: rest =>
    match separate_name_hash p with
    | none => .error .runtimeErr
    | some hn =>
      match depsPairs rest with
      | .ok l => .ok (hn :: l)
      | .error e => .error e

/-- The inner `for pkg_path in all_pkgs` loop of `package` (main.py lines
158-182), including the `create_rpm` / `create_cpkg` dispatch and the
`break` after a failed artifact build. -/
def innerLoop (ext : ExtTools) (pkgMode : Bool) :
    List Str → St → Except (PyExc × St) St
  | [], st => .ok st
  | pkg_path :: rest, st =>
    match separate_name_hash pkg_path with
    | none => .error (.runtimeErr, st)
    | some _ =>
      match depsPairs (ext.references pkg_path) with
      | .error e => .error (e, st)
      | .ok _ =>
        if pkgMode then
          if ext.isdir pkg_path = false then innerLoop ext pkgMode rest st
          else
            let success := ext.cpkg_build pkg_path
            let st := { st with artifacts := st.artifacts ++ [(pkg_path, success)] }
            if success then innerLoop ext pkgMode rest st
            else .ok { st with pkg_error := true }
        else
          let success := ext.rpm_build pkg_path
          let st := { st with artifacts := st.artifacts ++ [(pkg_path, success)] }
          if success then innerLoop ext pkgMode rest st
          else .ok { st with pkg_error := true }

/-- The outer `for package in pkgs` loop of `package` (main.py lines
140-182).  Note the early-break test reads `rpm_error`, which no
statement ever sets to `True`. -/
def outerLoop (ext : ExtTools) (pkgMode : Bool) :
    List Str → St → Except (PyExc × St) St
  | [], st => .ok st
  | package :: rest, st =>
    if st.rpm_error then .ok st
    else
      let st := { st with started := st.started ++ [package] }
      match ext.build package with
      | .error e => .error (e, st)
      | .ok base_names =>
        match ext.pack_list base_names with
        | .error e => .error (e, st)
        | .ok all_pkgs =>
          let st := { st with all_pkgs := some all_pkgs }
          match innerLoop ext pkgMode all_pkgs st with
          | .error es => .error es
          | .ok st2 => outerLoop ext pkgMode rest st2

/-- The `if pkg:` distribution-package block (main.py lines 183-190).
`all_pkgs` unbound raises `NameError`, `all_pkgs[0]` on an empty list
raises `IndexError`, a non-matching path raises `RuntimeError`, and the
four-argument call of the three-parameter `build_dist_pkg` raises
`TypeError`. -/
def distStep (st : St) : Except (PyExc × St) St :=
  match st.all_pkgs with
  | none => .error (.nameErr, st)
  | some [] => .error (.indexErr, st)
  | some (first :: _) =>
    match separate_name_hash first with
    | none => .error (.runtimeErr, st)
    | some _ => .error (.typeErr, st)

/-- The body of the `try` block of `package`: the outer loop followed, in
Apple-package mode, by the distribution step. -/
def runPipeline (ext : ExtTools) (pkgMode : Bool) (pkgs : List Str) :
    Except (PyExc × St) St :=
  match outerLoop ext pkgMode pkgs St.init with
  | .error es => .error es
  | .ok st => if pkgMode then distStep st else .ok st

/-- The `package` command (main.py lines 110-207): returns the process
exit code and the final loop state.  `exit(1)` when nix is not installed;
`except NixBuildError` prints and exits 1; any other uncaught exception
also terminates the interpreter with exit code 1; otherwise the exit code
is 1 exactly when `pkg_error` was set. -/
def packageCmd (ext : ExtTools) (pkgMode isX86 isArm : Bool) (pkgs0 : List Str)
    (arm x86 : Bool) : Nat × St :=
  if ext.installed = false then (1, St.init)
  else
    let pkgs := add_cross_compile_pkgs isX86 isArm pkgs0 arm x86
    match runPipeline ext pkgMode pkgs with
    | .error (_, st) => (1, st)
    | .ok st => (if st.pkg_error then 1 else 0, st)

/- ------------------------------------------------------------------ -/
/- Helper lemmas                                                      -/
/- ------------------------------------------------------------------ -/

theorem sanitizePlus_not_mem (s : Str) : '+' ∉ sanitizePlus s := by
  induction s with
  | nil => simp [sanitizePlus]
  | cons c rest ih =>
    by_cases h : c = '+'
    · simp [sanitizePlus, h, List.mem_append, List.mem_cons]
      exact fun hf => absurd hf (by exact fun hf2 => ih hf2)
    · simp [sanitizePlus, h, List.mem_append, List.mem_cons]
      exact ⟨fun he => h he.symm, ih⟩

theorem sanitizePlus_id (s : Str) (h : '+' ∉ s) : sanitizePlus s = s := by
  induction s with
  | nil => rfl
  | cons c rest ih =>
    simp only [List.mem_cons] at h
    push_neg at h
    have hc : ¬ c = '+' := fun he => h.1 he.symm
    simp [sanitizePlus, hc, ih h.2]

theorem isPrefixList_self_append (p t : Str) : isPrefixList p (p ++ t) = true := by
  induction p with
  | nil => rfl
  | cons a as ih => simp [isPrefixList, ih]

/- ------------------------------------------------------------------ -/
/- Claim theorems                                                     -/
/- ------------------------------------------------------------------ -/

/-- Claim C3: `add_cross_compile_pkgs` returns its input unchanged when
both flags are false; on an x86 host it expands `["wget"]` with both
flags set to exactly `["wget", "pkgsCross.aarch64-darwin.wget"]`; and any
name already containing the `pkgsCross` marker passes through unmodified
for every combination of host architecture and flags. -/
theorem claim_C3_cross_compile :
    (∀ (isX86 isArm : Bool) (pkgs : List Str),
        add_cross_compile_pkgs isX86 isArm pkgs false false = pkgs) ∧
    (add_cross_compile_pkgs true false ["wget".data] true true
      = ["wget".data, "pkgsCross.aarch64-darwin.wget".data]) ∧
    (∀ (isX86 isArm arm x86 : Bool) (pkg : Str),
        containsSub "pkgsCross".data pkg = true →
        add_cross_compile_pkgs isX86 isArm [pkg] arm x86 = [pkg]) := by
  refine ⟨?_, by decide, ?_⟩
  · intro isX86 isArm pkgs
    simp [add_cross_compile_pkgs]
  · intro isX86 isArm arm x86 pkg hmark
    by_cases hflags : arm = false ∧ x86 = false
    · simp [add_cross_compile_pkgs, hflags]
    · simp [add_cross_compile_pkgs, hflags, crossExpandOne, hmark]

/-- Witness for claim C3 at a concrete marker-carrying package name. -/
theorem claim_C3_cross_compile_witness :
    containsSub "pkgsCross".data "pkgsCross.aarch64-darwin.wget".data = true ∧
    add_cross_compile_pkgs true false ["pkgsCross.aarch64-darwin.wget".data]
        true false = ["pkgsCross.aarch64-darwin.wget".data] :=
  ⟨by decide,
    claim_C3_cross_compile.2.2 true false true false
      "pkgsCross.aarch64-darwin.wget".data (by decide)⟩

/-- Claim C8: the `+` → `plus` sanitization used by `_rpm_name` and
`_comp_pkg_name` leaves `+`-free names unchanged, is idempotent, leaves
no `+` in its output (every occurrence replaced), and consequently both
generated artifact names are fixed points of the sanitization. -/
theorem claim_C8_sanitization :
    (∀ s : Str, '+' ∉ s → sanitizePlus s = s) ∧
    (∀ s : Str, sanitizePlus (sanitizePlus s) = sanitizePlus s) ∧
    (∀ s : Str, '+' ∉ sanitizePlus s) ∧
    (∀ n h : Str, sanitizePlus (rpm_name n h) = rpm_name n h) ∧
    (∀ n h : Str, sanitizePlus (comp_pkg_name n h) = comp_pkg_name n h) := by
  refine ⟨sanitizePlus_id, ?_, sanitizePlus_not_mem, ?_, ?_⟩
  · exact fun s => sanitizePlus_id _ (sanitizePlus_not_mem s)
  · exact fun n h => sanitizePlus_id _ (sanitizePlus_not_mem _)
  · exact fun n h => sanitizePlus_id _ (sanitizePlus_not_mem _)

/-- Witness for claim C8 at a concrete `+`-free name. -/
theorem claim_C8_sanitization_witness :
    '+' ∉ "wget".data ∧ sanitizePlus "wget".data = "wget".data :=
  ⟨by decide, claim_C8_sanitization.1 "wget".data (by decide)⟩

/-- Claim C10: `build_dist_pkg` with an empty component-package list
returns failure and never invokes the external `productbuild` tool, for
every oracle, package name and output directory. -/
theorem claim_C10_empty_components :
    ∀ (productbuild : List Str → Int) (pkg_name output_dir : Str),
      build_dist_pkg productbuild [] pkg_name output_dir = (false, none) := by
  intro productbuild pkg_name output_dir
  rfl

/-- Claim C7 (refuted): the component name is `<name>-<hash>.pkg` with
`+` sanitized as claimed, but the umbrella name produced by
`_dist_pkg_name` is `nix2pkg-<name>.pkg` with NO hash component, so the
claimed `nix2pkg-<name>-<hash>.pkg` shape is wrong for the distribution
artifact (moreover `create_dpkg` passes four arguments to the
three-parameter `build_dist_pkg`, a `TypeError` at runtime). -/
theorem claim_C7_artifact_names :
    comp_pkg_name "wget".data "abcd1234".data = "wget-abcd1234.pkg".data ∧
    comp_pkg_name "gtk+".data "ab+cd".data = "gtkplus-abpluscd.pkg".data ∧
    dist_pkg_name "wget".data = "nix2pkg-wget.pkg".data ∧
    "nix2pkg-wget.pkg".data ≠ "nix2pkg-wget-abcd1234.pkg".data := by
  decide

/-- Environment used to exhibit the restore behaviour of
`_set_enviromentals`. -/
def env0C6 : Env := [("HOME".data, "/root".data), ("PATH".data, "/bin".data)]

/-- A `with`-body that returns normally, leaving the environment as the
overrides set it (e.g. a successful subprocess call). -/
def bodyOk : Env → Except Unit Unit × Env := fun env => (.ok (), env)

/-- A `with`-body that raises (e.g. `build_pkg` raising `NixBuildError`
at main loop build time), leaving the overridden environment behind. -/
def bodyRaise : Env → Except Unit Unit × Env := fun env => (.error (), env)

/-- Claim C6 (refuted on the exception path): after a body that returns
normally the environment is restored to the saved copy, but after a body
that raises — as `build_pkg` does on any failed build — the generator
cleanup after `yield` never runs, and the Nix overrides (here
`NIX_STORE_DIR`) survive the scope. -/
theorem claim_C6_env_not_restored :
    (with_set_enviromentals false true false env0C6 bodyOk).2 = env0C6 ∧
    (with_set_enviromentals false true false env0C6 bodyRaise).2 ≠ env0C6 ∧
    envGet (with_set_enviromentals false true false env0C6 bodyRaise).2
        "NIX_STORE_DIR".data = some "/nix/store".data ∧
    envGet env0C6 "NIX_STORE_DIR".data = none := by
  decide

/-- Oracles for the claim C1 exhibit: every build succeeds and yields a
single store path, every `rpmbuild` fails. -/
def extC1 : ExtTools :=
  { installed := true
    build := fun p => .ok [p]
    pack_list := fun bs =>
      .ok (bs.map (fun n => "/nix/store/aaaaaaaaaaaaaaaaaaaaaaaaaaaaaaaa-".data ++ n))
    references := fun _ => []
    isdir := fun _ => true
    rpm_build := fun _ => false
    cpkg_build := fun _ => true }

/-- Claim C1 (refuted): packaging of the first requested package fails
(`rpmbuild` returns failure), yet the build phase of the second package starts
and its artifact build is attempted, because the early-break test reads
`rpm_error`, which is never set; only the final exit code 1 part of the
claim holds. -/
theorem claim_C1_failfast_bug :
    (packageCmd extC1 false false false ["a".data, "b".data] false false).1 = 1 ∧
    (packageCmd extC1 false false false ["a".data, "b".data] false false).2.started
      = ["a".data, "b".data] ∧
    (packageCmd extC1 false false false ["a".data, "b".data] false false).2.artifacts
      = [("/nix/store/aaaaaaaaaaaaaaaaaaaaaaaaaaaaaaaa-a".data, false),
          ("/nix/store/aaaaaaaaaaaaaaaaaaaaaaaaaaaaaaaa-b".data, false)] := by
  decide

/- Helper lemmas for claim C4 -/

/-- The non-self dependencies of a package, rendered exactly as the
`Requires:` loop of `generate_spec` appends them. -/
def renderDeps (pkg_hash : Str) (deps_pairs : List (Str × Str)) : Str :=
  (deps_pairs.filter (fun d => decide (d.1 ≠ pkg_hash))).flatMap
    (fun d => ' ' :: rpm_name d.2 d.1)

theorem req_build_eq (pkg_hash : Str) (deps_pairs : List (Str × Str))
    (line : Str) (b : Bool) :
    req_build pkg_hash deps_pairs (line, b)
      = (line ++ renderDeps pkg_hash deps_pairs,
          b && decide (deps_pairs.filter (fun d => decide (d.1 ≠ pkg_hash)) = [])) := by
  induction deps_pairs generalizing line b with
  | nil => simp [req_build, renderDeps]
  | cons d rest ih =>
    obtain ⟨dh, dn⟩ := d
    by_cases h : dh = pkg_hash
    · subst h
      simp [req_build, ih, renderDeps]
      congr 1
      exact decide_eq_decide.mpr (by simp [List.filter_cons])
    · have h2 : dh ≠ pkg_hash := h
      simp [req_build, h2, h, ih, renderDeps, List.filter_cons,
        List.append_assoc]

theorem isPrefixList_ne_head {a b : Char} (h : ¬ a = b) (t l : Str) :
    isPrefixList (a :: t) (b :: l) = false := by
  simp [isPrefixList, h]

theorem noReq_name (x : Str) :
    isPrefixList "Requires:".data ("Name: ".data ++ x) = false := by
  have h1 : "Name: ".data ++ x = 'N' :: ("ame: ".data ++ x) := rfl
  have h2 : "Requires:".data = 'R' :: "equires:".data := rfl
  rw [h1, h2]
  exact isPrefixList_ne_head (by decide) _ _

theorem noReq_packaged (n h : Str) :
    isPrefixList "Requires:".data
      ("Packaged ".data ++ n ++ " with hash ".data ++ h ++ " using nix2rpm".data)
      = false := by
  have h1 : "Packaged ".data ++ n ++ " with hash ".data ++ h ++ " using nix2rpm".data
      = 'P' :: ("ackaged ".data ++ n ++ " with hash ".data ++ h ++
          " using nix2rpm".data) := rfl
  have h2 : "Requires:".data = 'R' :: "equires:".data := rfl
  rw [h1, h2]
  exact isPrefixList_ne_head (by decide) _ _

theorem noReq_cp (x : Str) :
    isPrefixList "Requires:".data
      ("cp -a ".data ++ x ++ " $RPM_BUILD_ROOT/opt/facebook/nix/store/".data)
      = false := by
  have h1 : "cp -a ".data ++ x ++ " $RPM_BUILD_ROOT/opt/facebook/nix/store/".data
      = 'c' :: ("p -a ".data ++ x ++
          " $RPM_BUILD_ROOT/opt/facebook/nix/store/".data) := rfl
  have h2 : "Requires:".data = 'R' :: "equires:".data := rfl
  rw [h1, h2]
  exact isPrefixList_ne_head (by decide) _ _

theorem mem_specfile_lines (pkg_path pkg_name pkg_hash : Str)
    (deps_pairs : List (Str × Str)) (l : Str) :
    l ∈ specfile_lines pkg_path pkg_name pkg_hash deps_pairs ↔
      some l ∈ specfile_entries pkg_path pkg_name pkg_hash deps_pairs ∧ l ≠ [] := by
  simp only [specfile_lines, List.mem_filter, List.mem_filterMap, id,
    decide_eq_true_eq]
  constructor
  · rintro ⟨⟨a, ha, rfl⟩, hne⟩
    exact ⟨ha, hne⟩
  · rintro ⟨ha, hne⟩
    exact ⟨⟨some l, ha, rfl⟩, hne⟩

/-- Claim C4: the `Requires:` line of the generated spec text carries
exactly the non-self dependencies — every dependency pair whose hash
equals the own hash of the package is excluded — and when the dependency list
is empty or consists only of self references, no line of the spec text
starts with `Requires:` at all.  The hypothesis records that the package
path does not itself spell a `Requires:` line (store paths begin with
`/`). -/
theorem claim_C4_requires_filtering :
    ∀ (pkg_path pkg_name pkg_hash : Str) (deps_pairs : List (Str × Str)),
      isPrefixList "Requires:".data pkg_path = false →
      ((deps_pairs.filter (fun d => decide (d.1 ≠ pkg_hash)) = [] →
          ∀ l ∈ specfile_lines pkg_path pkg_name pkg_hash deps_pairs,
            isPrefixList "Requires:".data l = false) ∧
        (deps_pairs.filter (fun d => decide (d.1 ≠ pkg_hash)) ≠ [] →
          ("Requires:".data ++ renderDeps pkg_hash deps_pairs)
              ∈ specfile_lines pkg_path pkg_name pkg_hash deps_pairs ∧
            ∀ l ∈ specfile_lines pkg_path pkg_name pkg_hash deps_pairs,
              isPrefixList "Requires:".data l = true →
              l = "Requires:".data ++ renderDeps pkg_hash deps_pairs)) := by
  intro pkg_path pkg_name pkg_hash deps_pairs hpath
  have hrb := req_build_eq pkg_hash deps_pairs "Requires:".data true
  constructor
  · intro hempty l hl
    rw [mem_specfile_lines] at hl
    obtain ⟨hmem, _⟩ := hl
    have hcond : (req_build pkg_hash deps_pairs ("Requires:".data, true)).2 = true := by
      rw [hrb, hempty]
      simp
    rw [specfile_entries] at hmem
    rw [hcond] at hmem
    simp only [if_true, List.mem_cons, List.not_mem_nil, or_false,
      Option.some.injEq, reduceCtorEq, false_or, or_false] at hmem
    rcases hmem with h|h|h|h|h|h|h|h|h|h|h|h|h|h|h|h|h|h|h <;> subst h
    · exact noReq_name _
    · decide
    · decide
    · decide
    · decide
    · decide
    · decide
    · decide
    · decide
    · decide
    · exact noReq_packaged _ _
    · decide
    · decide
    · exact noReq_cp _
    · decide
    · exact hpath
    · decide
    · decide
    · decide
  · intro hne
    have hcond : (req_build pkg_hash deps_pairs ("Requires:".data, true)).2 = false := by
      rw [hrb]
      simpa using hne
    have hval : (req_build pkg_hash deps_pairs ("Requires:".data, true)).1
        = "Requires:".data ++ renderDeps pkg_hash deps_pairs := by
      rw [hrb]
    have hhead : "Requires:".data ++ renderDeps pkg_hash deps_pairs
        = 'R' :: ("equires:".data ++ renderDeps pkg_hash deps_pairs) := rfl
    constructor
    · rw [mem_specfile_lines]
      constructor
      · rw [specfile_entries, hcond]
        simp only [if_false, List.mem_cons, Bool.false_eq_true]
        right; right; right; right; right; right; right; right; right
        left
        rw [hval]
      · rw [hhead]
        exact List.cons_ne_nil _ _
    · intro l hl hpre
      rw [mem_specfile_lines] at hl
      obtain ⟨hmem, _⟩ := hl
      rw [specfile_entries, hcond] at hmem
      simp only [if_false, List.mem_cons, List.not_mem_nil, or_false,
        Option.some.injEq, Bool.false_eq_true] at hmem
      rcases hmem with h|h|h|h|h|h|h|h|h|h|h|h|h|h|h|h|h|h|h|h <;> subst h
      · rw [noReq_name] at hpre
        exact absurd hpre (by decide)
      · exact absurd hpre (by decide)
      · exact absurd hpre (by decide)
      · exact absurd hpre (by decide)
      · exact absurd hpre (by decide)
      · exact absurd hpre (by decide)
      · exact absurd hpre (by decide)
      · exact absurd hpre (by decide)
      · exact absurd hpre (by decide)
      · exact hval
      · exact absurd hpre (by decide)
      · rw [noReq_packaged] at hpre
        exact absurd hpre (by decide)
      · exact absurd hpre (by decide)
      · exact absurd hpre (by decide)
      · rw [noReq_cp] at hpre
        exact absurd hpre (by decide)
      · exact absurd hpre (by decide)
      · rw [hpath] at hpre
        exact absurd hpre (by decide)
      · exact absurd hpre (by decide)
      · exact absurd hpre (by decide)
      · exact absurd hpre (by decide)

/-- Witness for claim C4 at a concrete package with one self-dependency
and one real dependency. -/
theorem claim_C4_requires_filtering_witness :
    isPrefixList "Requires:".data "/nix/store/h1-a".data = false ∧
    ("Requires:".data ++
        renderDeps "h1".data [("h1".data, "a".data), ("h2".data, "b".data)])
      ∈ specfile_lines "/nix/store/h1-a".data "a".data "h1".data
          [("h1".data, "a".data), ("h2".data, "b".data)] :=
  ⟨by decide,
    ((claim_C4_requires_filtering "/nix/store/h1-a".data "a".data "h1".data
        [("h1".data, "a".data), ("h2".data, "b".data)] (by decide)).2
      (by decide)).1⟩

/- Helper lemma for claim C5 -/

theorem mem_dirlistOf (entries : List (Str × Bool)) (pnames : List Str) (x : Str) :
    x ∈ dirlistOf entries pnames ↔
      ∃ e ∈ entries, ∃ p ∈ pnames,
        containsSub p e.1 = true ∧ e.2 = true ∧ storeJoin e.1 = x := by
  simp only [dirlistOf, List.mem_flatMap, List.mem_map, List.mem_filter,
    Bool.and_eq_true]
  constructor
  · rintro ⟨e, he, ⟨p, ⟨hp, hc, he2⟩, hx⟩⟩
    exact ⟨e, he, p, hp, hc, he2, hx⟩
  · rintro ⟨e, he, p, hp, hc, he2, hx⟩
    exact ⟨e, he, ⟨p, ⟨hp, hc, he2⟩, hx⟩⟩

/-- Claim C5 (refutation input): a store entry whose basename contains
the requested name but which is NOT a directory: the code still raises
the not-found error, although the basename of a store entry contains
a requested name. -/
theorem claim_C5_counterexample :
    get_pkgs_to_pack [("aaa-wget.drv".data, false)] (fun _ => [])
        ["wget".data] = .error () ∧
    containsSub "wget".data "aaa-wget.drv".data = true :=
  ⟨rfl, by decide⟩

/-- Claim C5 (amended): `get_pkgs_to_pack` raises not-found exactly when
no store entry that is a DIRECTORY has a basename containing a requested
name; otherwise it returns a duplicate-free list whose members are
exactly the union of the closures of the matched directory paths. -/
theorem claim_C5_pkgs_to_pack :
    ∀ (entries : List (Str × Bool)) (closure : Str → List Str)
      (pnames : List Str),
      (get_pkgs_to_pack entries closure pnames = .error () ↔
        ∀ e ∈ entries, ∀ p ∈ pnames, ¬(containsSub p e.1 = true ∧ e.2 = true)) ∧
      (∀ l, get_pkgs_to_pack entries closure pnames = .ok l →
        l.Nodup ∧ ∀ x, (x ∈ l ↔ ∃ e ∈ entries, ∃ p ∈ pnames,
          containsSub p e.1 = true ∧ e.2 = true ∧ x ∈ closure (storeJoin e.1))) := by
  intro entries closure pnames
  by_cases hnil : dirlistOf entries pnames = []
  · constructor
    · simp only [get_pkgs_to_pack, hnil, List.length_nil, if_pos, true_iff]
      intro e he p hp ⟨hc, he2⟩
      have : storeJoin e.1 ∈ dirlistOf entries pnames :=
        (mem_dirlistOf entries pnames _).mpr ⟨e, he, p, hp, hc, he2, rfl⟩
      rw [hnil] at this
      cases this
    · intro l hl
      simp only [get_pkgs_to_pack, hnil, List.length_nil, if_pos] at hl
      cases hl
  · have hlen : ¬(dirlistOf entries pnames).length = 0 := by
      simpa [List.length_eq_zero] using hnil
    constructor
    · simp only [get_pkgs_to_pack, if_neg hlen]
      apply iff_of_false (by simp)
      intro hall
      apply hnil
      rw [List.eq_nil_iff_forall_not_mem]
      intro x hx
      obtain ⟨e, he, p, hp, hc, he2, _⟩ := (mem_dirlistOf entries pnames x).mp hx
      exact hall e he p hp ⟨hc, he2⟩
    · intro l hl
      simp only [get_pkgs_to_pack, if_neg hlen, Except.ok.injEq] at hl
      subst hl
      refine ⟨List.nodup_dedup _, ?_⟩
      intro x
      rw [List.mem_dedup, List.mem_flatMap]
      constructor
      · rintro ⟨d, hd, hx⟩
        obtain ⟨e, he, p, hp, hc, he2, hj⟩ := (mem_dirlistOf entries pnames d).mp hd
        exact ⟨e, he, p, hp, hc, he2, hj ▸ hx⟩
      · rintro ⟨e, he, p, hp, hc, he2, hx⟩
        exact ⟨storeJoin e.1,
          (mem_dirlistOf entries pnames _).mpr ⟨e, he, p, hp, hc, he2, rfl⟩, hx⟩

/-- Witness for claim C5 at a concrete store with one matching directory
entry. -/
theorem claim_C5_pkgs_to_pack_witness :
    get_pkgs_to_pack [("aa-wget".data, true)] (fun p => [p])
        ["wget".data] = .ok ["/nix/store/aa-wget".data] ∧
    ["/nix/store/aa-wget".data].Nodup :=
  ⟨rfl,
    ((claim_C5_pkgs_to_pack [("aa-wget".data, true)] (fun p => [p])
        ["wget".data]).2 ["/nix/store/aa-wget".data] rfl).1⟩

/- Helper lemmas for claim C2 -/

theorem head?_decomp (l : Str) (a : Char) (h : l.head? = some a) :
    l = a :: l.tail := by
  cases l with
  | nil => cases h
  | cons b t =>
    simp only [List.head?_cons, Option.some.injEq] at h
    subst h
    rfl

theorem getLast?_decomp : ∀ (l : Str) (a : Char), l.getLast? = some a →
    l = l.dropLast ++ [a] := by
  intro l
  induction l with
  | nil => intro a h; cases h
  | cons b t ih =>
    intro a h
    cases t with
    | nil =>
      simp only [List.getLast?_singleton, Option.some.injEq] at h
      subst h
      rfl
    | cons c t2 =>
      rw [List.getLast?_cons_cons] at h
      have := ih a h
      calc b :: c :: t2 = b :: ((c :: t2).dropLast ++ [a]) := by rw [← this]
        _ = (b :: c :: t2).dropLast ++ [a] := by simp

theorem all_dot_of_not_mem (l : Str) (h : '\n' ∉ l) : l.all dotChar = true := by
  rw [List.all_eq_true]
  intro c hc
  simp only [dotChar, decide_eq_true_eq]
  exact fun he => h (he ▸ hc)

theorem drop_eq_cons_of_getElem : ∀ (l : Str) (i : Nat) (c : Char),
    l[i]? = some c → l.drop i = c :: l.drop (i + 1) := by
  intro l
  induction l with
  | nil => intro i c h; cases i <;> cases h
  | cons a t ih =>
    intro i c h
    cases i with
    | zero =>
      simp only [List.getElem?_cons_zero, Option.some.injEq] at h
      subst h
      simp
    | succ m =>
      simp only [List.getElem?_cons_succ] at h
      simpa using ih m c h

theorem searchFrom_some (path : Str) :
    ∀ (k : Nat) (r : Str × Str), searchFrom path k = some r →
      ∃ i, i < k ∧ sepMatchAt path i = some r := by
  intro k
  induction k with
  | zero => intro r h; cases h
  | succ m ih =>
    intro r h
    rw [searchFrom] at h
    cases hm : sepMatchAt path m with
    | some r2 =>
      rw [hm] at h
      cases h
      exact ⟨m, Nat.lt_succ_self m, hm⟩
    | none =>
      rw [hm] at h
      obtain ⟨j, hj, hsm⟩ := ih r h
      exact ⟨j, Nat.lt_succ_of_lt hj, hsm⟩

theorem searchFrom_find (path : Str) (i : Nat) (r : Str × Str)
    (hi : sepMatchAt path i = some r) :
    ∀ (k : Nat), i < k → (∀ j, i < j → j < k → sepMatchAt path j = none) →
      searchFrom path k = some r := by
  intro k
  induction k with
  | zero => intro h; omega
  | succ m ih =>
    intro hik hnone
    rw [searchFrom]
    by_cases hm : i = m
    · subst hm
      rw [hi]
    · have him : i < m := by omega
      rw [hnone m him (Nat.lt_succ_self m)]
      exact ih him (fun j hj1 hj2 => hnone j hj1 (by omega))

theorem sepMatchAt_destruct (path : Str) (i : Nat) (r : Str × Str)
    (h : sepMatchAt path i = some r) :
    path[i]? = some '/' ∧ regexTail (path.drop (i + 1)) = some r := by
  unfold sepMatchAt at h
  split at h
  · next hc => exact ⟨hc.1, h⟩
  · cases h

theorem regexTail_construct (h n : Str) (hlen : h.length = 32)
    (hall : h.all isLowerAlnum = true) (hdot : n.all dotChar = true) :
    regexTail (h ++ '-' :: n) = some (h, n) := by
  have ht : (h ++ '-' :: n).take 32 = h := by
    rw [← hlen]
    exact List.take_left h _
  have hd : (h ++ '-' :: n).drop 32 = '-' :: n := by
    rw [← hlen]
    exact List.drop_left h _
  have hd33 : (h ++ '-' :: n).drop 33 = n := by
    have heq : h ++ '-' :: n = (h ++ ['-']) ++ n := by simp
    have hlen2 : (h ++ ['-']).length = 33 := by simp [hlen]
    rw [heq, ← hlen2]
    exact List.drop_left _ _
  simp [regexTail, ht, hd, hd33, hlen, hall, matchEnd, hdot]

theorem regexTail_destruct (s h n : Str) (hr : regexTail s = some (h, n)) :
    h.length = 32 ∧ h.all isLowerAlnum = true ∧
      ∃ rest, s = h ++ '-' :: rest ∧ (rest = n ∨ rest = n ++ ['\n']) := by
  unfold regexTail at hr
  split at hr
  case isFalse => cases hr
  case isTrue hc =>
    obtain ⟨hl, ha, hh⟩ := hc
    cases hme : matchEnd (s.drop 33) with
    | none => rw [hme] at hr; cases hr
    | some m =>
      rw [hme] at hr
      simp only [Option.some.injEq, Prod.mk.injEq] at hr
      obtain ⟨rfl, rfl⟩ := hr
      refine ⟨hl, ha, s.drop 33, ?_, ?_⟩
      · have hsplit := (List.take_append_drop 32 s).symm
        have hd32 : s.drop 32 = '-' :: (s.drop 32).tail := head?_decomp _ _ hh
        have ht32 : (s.drop 32).tail = s.drop 33 := by
          rw [List.tail_drop]
        rw [ht32] at hd32
        conv_lhs => rw [hsplit]
        rw [hd32]
      · unfold matchEnd at hme
        split at hme
        · next hdot =>
          simp only [Option.some.injEq] at hme
          exact Or.inl hme
        · split at hme
          · next hcond =>
            simp only [Option.some.injEq] at hme
            subst hme
            exact Or.inr (getLast?_decomp _ _ hcond.2)
          · cases hme

theorem sepMatchAt_at (dir tail : Str) (hdir : dir.all dotChar = true) :
    sepMatchAt (dir ++ '/' :: tail) dir.length = regexTail tail := by
  have hget : (dir ++ '/' :: tail)[dir.length]? = some '/' := by
    rw [List.getElem?_append_right (le_refl _)]
    simp
  have htake : (dir ++ '/' :: tail).take dir.length = dir := List.take_left dir _
  have hdrop : (dir ++ '/' :: tail).drop (dir.length + 1) = tail := by
    have heq : dir ++ '/' :: tail = (dir ++ ['/']) ++ tail := by simp
    have hlen2 : (dir ++ ['/']).length = dir.length + 1 := by simp
    rw [heq, ← hlen2]
    exact List.drop_left _ _
  have hcond : (dir ++ '/' :: tail)[dir.length]? = some '/' ∧
      ((dir ++ '/' :: tail).take dir.length).all dotChar = true := by
    refine ⟨hget, ?_⟩
    rw [htake]
    exact hdir
  unfold sepMatchAt
  rw [if_pos hcond, hdrop]

theorem sepMatchAt_after (dir tail : Str) (htail : '/' ∉ tail) (j : Nat)
    (hj : dir.length < j) : sepMatchAt (dir ++ '/' :: tail) j = none := by
  have hne : ¬((dir ++ '/' :: tail)[j]? = some '/') := by
    intro hget
    rw [List.getElem?_append_right (by omega)] at hget
    cases hcase : j - dir.length with
    | zero => omega
    | succ k =>
      rw [hcase] at hget
      simp only [List.getElem?_cons_succ] at hget
      exact htail (List.getElem?_mem hget)
  have hcond : ¬((dir ++ '/' :: tail)[j]? = some '/' ∧
      ((dir ++ '/' :: tail).take j).all dotChar = true) := by
    intro hc
    exact hne hc.1
  unfold sepMatchAt
  rw [if_neg hcond]

/-- The hexadecimal alphabet that the claim phrase `32-hex-chars` denotes:
digits and lowercase `a`-`f`. -/
def isHexChar (c : Char) : Bool :=
  decide (('0' ≤ c ∧ c ≤ '9') ∨ ('a' ≤ c ∧ c ≤ 'f'))

/-- Claim C2 (refutation input): a basename whose 32-character prefix is
made of `t` characters — not hexadecimal — which the claim says must fail
to parse, yet `separate_name_hash` accepts it, because the implemented
character class is `[a-z0-9]`, not hexadecimal. -/
theorem claim_C2_counterexample :
    separate_name_hash
        "/nix/store/tttttttttttttttttttttttttttttttt-foo".data
      = some ("tttttttttttttttttttttttttttttttt".data, "foo".data) ∧
    "tttttttttttttttttttttttttttttttt".data.all isHexChar = false := by
  decide

/-- Claim C2 (amended): for every path of the shape
`<dir>/<32 lowercase-alphanumeric chars>-<name>` (no newline before the
slash or in the name, no further slash in the name), `separate_name_hash`
returns exactly that (hash, name) split; and whenever it returns a pair,
the path decomposes as `<prefix>/<32 [a-z0-9] chars>-<name>` (up to one
trailing newline absorbed by the Python `$` anchor).  In particular every
path with no such decomposition raises. -/
theorem claim_C2_separate_name_hash :
    (∀ (dir hash name : Str),
        hash.length = 32 → hash.all isLowerAlnum = true →
        '/' ∉ name → '\n' ∉ name → '\n' ∉ dir →
        separate_name_hash (dir ++ '/' :: (hash ++ '-' :: name))
          = some (hash, name)) ∧
    (∀ (path h n : Str), separate_name_hash path = some (h, n) →
        ∃ pre rest, path = pre ++ '/' :: (h ++ '-' :: rest) ∧
          h.length = 32 ∧ h.all isLowerAlnum = true ∧
          (rest = n ∨ rest = n ++ ['\n'])) := by
  constructor
  · intro dir hash name hlen hall hslash hnl hdirnl
    have hdirdot := all_dot_of_not_mem dir hdirnl
    have hnamedot := all_dot_of_not_mem name hnl
    have hAt : sepMatchAt (dir ++ '/' :: (hash ++ '-' :: name)) dir.length
        = some (hash, name) := by
      rw [sepMatchAt_at dir _ hdirdot]
      exact regexTail_construct hash name hlen hall hnamedot
    have htailslash : '/' ∉ hash ++ '-' :: name := by
      intro hmem
      rcases List.mem_append.mp hmem with hh | hh
      · have := List.all_eq_true.mp hall '/' hh
        exact absurd this (by decide)
      · rcases List.mem_cons.mp hh with he | he
        · exact absurd he (by decide)
        · exact hslash he
    have hlenpath : dir.length
        < (dir ++ '/' :: (hash ++ '-' :: name)).length := by
      simp [List.length_append]
    have hnone : ∀ j, dir.length < j →
        j < (dir ++ '/' :: (hash ++ '-' :: name)).length →
        sepMatchAt (dir ++ '/' :: (hash ++ '-' :: name)) j = none :=
      fun j hj _ => sepMatchAt_after dir _ htailslash j hj
    exact searchFrom_find _ dir.length (hash, name) hAt _ hlenpath hnone
  · intro path h n hsep
    obtain ⟨i, _, hAt⟩ := searchFrom_some path path.length (h, n) hsep
    obtain ⟨hget, hrt⟩ := sepMatchAt_destruct path i (h, n) hAt
    obtain ⟨hl, ha, rest, hdec, hrn⟩ := regexTail_destruct _ h n hrt
    refine ⟨path.take i, rest, ?_, hl, ha, hrn⟩
    have hdi : path.drop i = '/' :: path.drop (i + 1) :=
      drop_eq_cons_of_getElem path i '/' hget
    calc path = path.take i ++ path.drop i := (List.take_append_drop i path).symm
      _ = path.take i ++ '/' :: path.drop (i + 1) := by rw [hdi]
      _ = path.take i ++ '/' :: (h ++ '-' :: rest) := by rw [hdec]

/-- Witness for claim C2 at a concrete well-formed store path. -/
theorem claim_C2_separate_name_hash_witness :
    "0123456789abcdefghij0123456789ab".data.all isLowerAlnum = true ∧
    separate_name_hash ("/nix/store".data ++
        '/' :: ("0123456789abcdefghij0123456789ab".data ++ '-' :: "wget".data))
      = some ("0123456789abcdefghij0123456789ab".data, "wget".data) :=
  ⟨by decide,
    claim_C2_separate_name_hash.1 "/nix/store".data
      "0123456789abcdefghij0123456789ab".data "wget".data
      (by decide) (by decide) (by decide) (by decide) (by decide)⟩

/- Helper lemmas for claim C9 -/

/-- Loop invariant of the `package` command: `pkg_error` is clear exactly
when every artifact build recorded so far reported success. -/
def StInv (st : St) : Prop :=
  st.pkg_error = false ↔ ∀ a ∈ st.artifacts, a.2 = true

theorem StInv_init : StInv St.init := by
  simp [StInv, St.init]

theorem StInv_append_true (st : St) (p : Str) :
    StInv st → StInv { st with artifacts := st.artifacts ++ [(p, true)] } := by
  intro hI
  unfold StInv at hI ⊢
  simp only [List.mem_append, List.mem_singleton]
  constructor
  · rintro hpe a (ha | rfl)
    · exact hI.mp hpe a ha
    · rfl
  · intro hall
    exact hI.mpr (fun a ha => hall a (Or.inl ha))

theorem StInv_fail (st : St) (p : Str) :
    StInv { st with pkg_error := true,
                    artifacts := st.artifacts ++ [(p, false)] } := by
  unfold StInv
  simp only [List.mem_append, List.mem_singleton]
  constructor
  · intro hpe
    cases hpe
  · intro hall
    have := hall (p, false) (Or.inr rfl)
    cases this

theorem inner_inv (ext : ExtTools) (mode : Bool) :
    ∀ (paths : List Str) (st st2 : St), StInv st →
      innerLoop ext mode paths st = .ok st2 → StInv st2 := by
  intro paths
  induction paths with
  | nil =>
    intro st st2 hI h
    simp only [innerLoop, Except.ok.injEq] at h
    exact h ▸ hI
  | cons p rest ih =>
    intro st st2 hI h
    rw [innerLoop] at h
    cases hsep : separate_name_hash p with
    | none => rw [hsep] at h; simp at h
    | some hn =>
      rw [hsep] at h
      cases hdp : depsPairs (ext.references p) with
      | error e => rw [hdp] at h; simp at h
      | ok dp =>
        rw [hdp] at h
        by_cases hmode : mode
        · rw [if_pos hmode] at h
          by_cases hdir : ext.isdir p = false
          · rw [if_pos hdir] at h
            exact ih st st2 hI h
          · rw [if_neg hdir] at h
            by_cases hs : ext.cpkg_build p = true
            · rw [if_pos hs] at h
              rw [hs] at h
              exact ih _ st2 (StInv_append_true st p hI) h
            · have hs2 : ext.cpkg_build p = false := by
                revert hs; cases ext.cpkg_build p <;> simp
              rw [hs2] at h
              simp only [Bool.false_eq_true, if_false, Except.ok.injEq] at h
              exact h ▸ StInv_fail st p
        · rw [if_neg hmode] at h
          by_cases hs : ext.rpm_build p = true
          · rw [if_pos hs] at h
            rw [hs] at h
            exact ih _ st2 (StInv_append_true st p hI) h
          · have hs2 : ext.rpm_build p = false := by
              revert hs; cases ext.rpm_build p <;> simp
            rw [hs2] at h
            simp only [Bool.false_eq_true, if_false, Except.ok.injEq] at h
            exact h ▸ StInv_fail st p

theorem outer_inv (ext : ExtTools) (mode : Bool) :
    ∀ (pkgs : List Str) (st st2 : St), StInv st →
      outerLoop ext mode pkgs st = .ok st2 → StInv st2 := by
  intro pkgs
  induction pkgs with
  | nil =>
    intro st st2 hI h
    simp only [outerLoop, Except.ok.injEq] at h
    exact h ▸ hI
  | cons p rest ih =>
    intro st st2 hI h
    simp only [outerLoop] at h
    by_cases hre : st.rpm_error = true
    · rw [if_pos hre] at h
      simp only [Except.ok.injEq] at h
      exact h ▸ hI
    · rw [if_neg hre] at h
      cases hb : ext.build p with
      | error e => simp [hb] at h
      | ok base_names =>
        simp only [hb] at h
        cases hpl : ext.pack_list base_names with
        | error e => simp [hpl] at h
        | ok all_pkgs =>
          simp only [hpl] at h
          cases hil : innerLoop ext mode all_pkgs
              { st with started := st.started ++ [p],
                        all_pkgs := some all_pkgs } with
          | error es => simp [hil] at h
          | ok st3 =>
            simp only [hil] at h
            have hI3 : StInv st3 := by
              apply inner_inv ext mode all_pkgs _ st3 _ hil
              unfold StInv at hI ⊢
              simpa using hI
            exact ih st3 st2 hI3 h

theorem distStep_never_ok (st st2 : St) : distStep st = .ok st2 → False := by
  intro h
  unfold distStep at h
  split at h
  · cases h
  · cases h
  · split at h
    · cases h
    · cases h

theorem pipeline_inv (ext : ExtTools) (mode : Bool) (pkgs : List Str)
    (st : St) : runPipeline ext mode pkgs = .ok st → StInv st := by
  intro h
  unfold runPipeline at h
  cases houter : outerLoop ext mode pkgs St.init with
  | error es => rw [houter] at h; simp at h
  | ok st1 =>
    simp only [houter] at h
    by_cases hmode : mode
    · rw [if_pos hmode] at h
      exact absurd h (fun hc => distStep_never_ok st1 st hc)
    · rw [if_neg hmode] at h
      simp only [Except.ok.injEq] at h
      exact h ▸ outer_inv ext mode pkgs St.init st1 StInv_init houter

/-- Claim C9: the exit code of the `package` command is always 0 or 1, and it
is 0 exactly when nix was installed, the whole pipeline ran to normal
completion (no error of the taxonomy was raised — which in Apple-package
mode includes the distribution step reporting success; as it stands that
step always raises, so Apple mode never reaches exit 0), and every
recorded per-package artifact build reported success; any packaging
failure or raised error yields exit code 1. -/
theorem claim_C9_exit_code :
    ∀ (ext : ExtTools) (pkgMode isX86 isArm : Bool) (pkgs0 : List Str)
      (arm x86 : Bool),
      ((packageCmd ext pkgMode isX86 isArm pkgs0 arm x86).1 = 0 ∨
        (packageCmd ext pkgMode isX86 isArm pkgs0 arm x86).1 = 1) ∧
      ((packageCmd ext pkgMode isX86 isArm pkgs0 arm x86).1 = 0 ↔
        ext.installed = true ∧
        ∃ st, runPipeline ext pkgMode
            (add_cross_compile_pkgs isX86 isArm pkgs0 arm x86) = .ok st ∧
          ∀ a ∈ st.artifacts, a.2 = true) := by
  intro ext pkgMode isX86 isArm pkgs0 arm x86
  unfold packageCmd
  by_cases hin : ext.installed = false
  · rw [if_pos hin]
    refine ⟨Or.inr rfl, ?_⟩
    apply iff_of_false (by simp)
    rintro ⟨h1, -⟩
    rw [hin] at h1
    cases h1
  · rw [if_neg hin]
    have hin' : ext.installed = true := by
      revert hin
      cases ext.installed <;> simp
    cases hrun : runPipeline ext pkgMode
        (add_cross_compile_pkgs isX86 isArm pkgs0 arm x86) with
    | error es =>
      obtain ⟨e, st⟩ := es
      simp only [hrun]
      refine ⟨Or.inr (by simp), ?_⟩
      apply iff_of_false (by simp)
      rintro ⟨-, st2, hok, -⟩
      simp at hok
    | ok st =>
      simp only [hrun]
      by_cases hpe : st.pkg_error = true
      · rw [if_pos hpe]
        refine ⟨Or.inr (by simp), ?_⟩
        apply iff_of_false (by simp)
        rintro ⟨-, st2, hok, hall⟩
        simp only [Except.ok.injEq] at hok
        subst hok
        have hfalse : st.pkg_error = false :=
          (pipeline_inv ext pkgMode _ st hrun).mpr hall
        rw [hfalse] at hpe
        cases hpe
      · rw [if_neg hpe]
        have hpe' : st.pkg_error = false := by
          revert hpe
          cases st.pkg_error <;> simp
        refine ⟨Or.inl (by simp), iff_of_true (by simp)
          ⟨hin', st, rfl, (pipeline_inv ext pkgMode _ st hrun).mp hpe'⟩⟩

/-- Oracles for the claim C9 witness: every external step succeeds in RPM
mode. -/
def extC9 : ExtTools :=
  { installed := true
    build := fun p => .ok [p]
    pack_list := fun bs =>
      .ok (bs.map (fun n => "/nix/store/bbbbbbbbbbbbbbbbbbbbbbbbbbbbbbbb-".data ++ n))
    references := fun _ => []
    isdir := fun _ => true
    rpm_build := fun _ => true
    cpkg_build := fun _ => true }

/-- Witness for claim C9 at a concrete fully successful RPM-mode run. -/
theorem claim_C9_exit_code_witness :
    extC9.installed = true ∧
    ∃ st, runPipeline extC9 false
        (add_cross_compile_pkgs false false ["a".data] false false) = .ok st ∧
      ∀ a ∈ st.artifacts, a.2 = true :=
  (claim_C9_exit_code extC9 false false false ["a".data] false false).2.mp
    (by decide)
